import Mathlib

/-!
Shallow embedding of `src/claude_session_summary.py` (a session-history
summarizer over JSON index files and JSONL session logs), together with
proofs about its discovery, deduplication, grouping, path-decoding and
transcript-lookup behaviour.

Python strings are modelled as Lean `String` (in this toolchain a wrapper
around `List Char`, matching Python's sequence-of-codepoints view).
Python exceptions are modelled with `Except PyError`; places where the
script catches exceptions are modelled by handling the `Except` value.
JSON values produced by `json.load` / `json.loads` are modelled by `JValue`.
-/

namespace CSS

/-- A parsed JSON value, as produced by Python's `json.load`/`json.loads`.
Objects are association lists (Python dicts have distinct keys; lookups
below take the first occurrence). -/
inductive JValue where
  | null : JValue
  | bool : Bool → JValue
  | num : Int → JValue
  | str : String → JValue
  | arr : List JValue → JValue
  | obj : List (String × JValue) → JValue

mutual

/-- Structural equality of JSON values, modelling Python `==` on the values
`json.load` can produce (the `1 == True` corner of Python numerics is not
modelled; no claim compares a bool with a number). -/
def JValue.beq : JValue → JValue → Bool
  | .null, .null => true
  | .bool a, .bool b => decide (a = b)
  | .num a, .num b => decide (a = b)
  | .str a, .str b => decide (a = b)
  | .arr a, .arr b => JValue.beqList a b
  | .obj a, .obj b => JValue.beqFields a b
  | _, _ => false

/-- Elementwise equality of JSON arrays. -/
def JValue.beqList : List JValue → List JValue → Bool
  | [], [] => true
  | a :: as, b :: bs => JValue.beq a b && JValue.beqList as bs
  | _, _ => false

/-- Elementwise equality of JSON object field lists. -/
def JValue.beqFields : List (String × JValue) → List (String × JValue) → Bool
  | [], [] => true
  | (k, v) :: as, (l, w) :: bs => decide (k = l) && JValue.beq v w && JValue.beqFields as bs
  | _, _ => false

end

mutual

theorem JValue.beq_refl : ∀ (a : JValue), JValue.beq a a = true
  | .null => rfl
  | .bool a => by simp [JValue.beq]
  | .num a => by simp [JValue.beq]
  | .str a => by simp [JValue.beq]
  | .arr a => JValue.beqList_refl a
  | .obj a => JValue.beqFields_refl a

theorem JValue.beqList_refl : ∀ (l : List JValue), JValue.beqList l l = true
  | [] => rfl
  | a :: as => by
      simp only [JValue.beqList, Bool.and_eq_true]
      exact ⟨JValue.beq_refl a, JValue.beqList_refl as⟩

theorem JValue.beqFields_refl : ∀ (l : List (String × JValue)), JValue.beqFields l l = true
  | [] => rfl
  | (k, v) :: as => by
      simp only [JValue.beqFields, Bool.and_eq_true, decide_eq_true_eq]
      exact ⟨⟨by trivial, JValue.beq_refl v⟩, JValue.beqFields_refl as⟩

end

mutual

theorem JValue.beq_sound : ∀ {a b : JValue}, JValue.beq a b = true → a = b
  | .null, b, h => by
      cases b <;> first
        | rfl
        | exact Bool.noConfusion h
  | .bool a, b, h => by
      cases b <;> first
        | exact congrArg JValue.bool (of_decide_eq_true h)
        | exact Bool.noConfusion h
  | .num a, b, h => by
      cases b <;> first
        | exact congrArg JValue.num (of_decide_eq_true h)
        | exact Bool.noConfusion h
  | .str a, b, h => by
      cases b <;> first
        | exact congrArg JValue.str (of_decide_eq_true h)
        | exact Bool.noConfusion h
  | .arr a, b, h => by
      cases b <;> first
        | exact congrArg JValue.arr (JValue.beqList_sound h)
        | exact Bool.noConfusion h
  | .obj a, b, h => by
      cases b <;> first
        | exact congrArg JValue.obj (JValue.beqFields_sound h)
        | exact Bool.noConfusion h

theorem JValue.beqList_sound : ∀ {l m : List JValue}, JValue.beqList l m = true → l = m
  | [], [], _ => rfl
  | a :: as, b :: bs, h => by
      simp only [JValue.beqList, Bool.and_eq_true] at h
      rw [JValue.beq_sound h.1, JValue.beqList_sound h.2]
  | [], _ :: _, h => Bool.noConfusion h
  | _ :: _, [], h => Bool.noConfusion h

theorem JValue.beqFields_sound :
    ∀ {l m : List (String × JValue)}, JValue.beqFields l m = true → l = m
  | [], [], _ => rfl
  | (k, v) :: as, (l, w) :: bs, h => by
      simp only [JValue.beqFields, Bool.and_eq_true, decide_eq_true_eq] at h
      rw [h.1.1, JValue.beq_sound h.1.2, JValue.beqFields_sound h.2]
  | [], _ :: _, h => Bool.noConfusion h
  | _ :: _, [], h => Bool.noConfusion h

end

instance : BEq JValue := ⟨JValue.beq⟩

instance : LawfulBEq JValue where
  eq_of_beq h := JValue.beq_sound h
  rfl := JValue.beq_refl _

instance : DecidableEq JValue := fun a b =>
  if h : JValue.beq a b = true then isTrue (JValue.beq_sound h)
  else isFalse (fun he => absurd (he ▸ JValue.beq_refl a) h)

/-- The Python exception classes that the script can raise and does not
always catch. `ValueError` never escapes (it is always caught where it can
occur), so it has no constructor; `osError` stands for `stat`/`open`/read
failures (any `Exception` caught by the orphan scanner's broad handler). -/
inductive PyError where
  | attributeError : PyError
  | typeError : PyError
  | osError : PyError
deriving DecidableEq

instance {ε α : Type} [DecidableEq ε] [DecidableEq α] : DecidableEq (Except ε α) :=
  fun x y =>
    match x, y with
    | .ok a, .ok b =>
        if h : a = b then isTrue (congrArg Except.ok h)
        else isFalse fun he => h (by injection he)
    | .error a, .error b =>
        if h : a = b then isTrue (congrArg Except.error h)
        else isFalse fun he => h (by injection he)
    | .ok _, .error _ => isFalse fun he => Except.noConfusion he
    | .error _, .ok _ => isFalse fun he => Except.noConfusion he

/-- Unfolding a monadic bind over `Except` that returned a success. -/
theorem exceptBind_ok_iff {ε α β : Type} {x : Except ε α} {f : α → Except ε β} {b : β} :
    (x >>= f) = .ok b ↔ ∃ a, x = .ok a ∧ f a = .ok b := by
  cases x with
  | ok a =>
      constructor
      · intro h; exact ⟨a, rfl, h⟩
      · rintro ⟨a2, ha, hf⟩; injection ha with ha; subst ha; exact hf
  | error e =>
      constructor
      · intro h; exact absurd h (by intro hh; exact Except.noConfusion hh)
      · rintro ⟨a2, ha, _⟩; exact Except.noConfusion ha

/-! ## Python string primitives (over `List Char`) -/

/-- Whether `pat` is a prefix of `s` (Python `str.startswith`, at the
codepoint level). -/
def isPrefixL : List Char → List Char → Bool
  | [], _ => true
  | _ :: _, [] => false
  | a :: as, b :: bs => decide (a = b) && isPrefixL as bs

/-- Whether `needle` occurs as a contiguous substring of `hay`
(Python `needle in hay`). -/
def containsL (needle : List Char) : List Char → Bool
  | [] => isPrefixL needle []
  | b :: bs => isPrefixL needle (b :: bs) || containsL needle bs

/-- Python `needle in hay` on strings. -/
def pyInStr (needle hay : String) : Bool :=
  containsL needle.data hay.data

/-- Python `s.startswith(pat)`. -/
def pyStartsWith (s pat : String) : Bool :=
  isPrefixL pat.data s.data

/-- Python `s.split(sep)` for a single-character separator: split into the
(nonempty) list of chunks between occurrences of `sep`. -/
def splitOnChar (sep : Char) : List Char → List (List Char)
  | [] => [[]]
  | c :: cs =>
      let r := splitOnChar sep cs
      if c = sep then [] :: r
      else
        match r with
        | [] => [[c]]
        | s :: ss => (c :: s) :: ss

/-- Python `sep.join(parts)` for a single-character separator. -/
def joinWithChar (sep : Char) : List (List Char) → List Char
  | [] => []
  | [s] => s
  | s :: rest => s ++ sep :: joinWithChar sep rest

/-- One fuel-indexed step of Python `str.replace`: scan left to right and
replace each non-overlapping occurrence of `pat` (nonempty at every call
site) by `repl`. Each fuel unit consumes at least one character, so fuel
equal to the length of the string suffices. -/
def replaceFuel (pat repl : List Char) : Nat → List Char → List Char
  | 0, s => s
  | _ + 1, [] => []
  | fuel + 1, c :: cs =>
      if !pat.isEmpty && isPrefixL pat (c :: cs) then
        repl ++ replaceFuel pat repl fuel (cs.drop (pat.length - 1))
      else
        c :: replaceFuel pat repl fuel cs

/-- Python `s.replace(pat, repl)` (all occurrences, left to right,
non-overlapping; call sites always pass a nonempty `pat`). -/
def pyReplace (s pat repl : String) : String :=
  ⟨replaceFuel pat.data repl.data s.data.length s.data⟩

/-- Python `s[:n]` on a string. -/
def pyTakeStr (n : Nat) (s : String) : String :=
  ⟨s.data.take n⟩

/-! ## Python semantics on JSON values -/

/-- Python dict lookup `d[k]`-style access on a parsed JSON object field
list: the value for the first matching key, if any. -/
def jGet (fields : List (String × JValue)) (k : String) : Option JValue :=
  match fields with
  | [] => none
  | (l, v) :: rest => if l = k then some v else jGet rest k

/-- Python truthiness `bool(v)` of a JSON value. -/
def jTruthy : JValue → Bool
  | .null => false
  | .bool b => b
  | .num n => decide (n ≠ 0)
  | .str s => decide (s ≠ "")
  | .arr xs => decide (xs ≠ [])
  | .obj fs => decide (fs ≠ [])

/-- Python `for x in v`: lists iterate their elements, strings their
characters (as one-character strings), dicts their keys; other values raise
`TypeError`. -/
def pyIterate : JValue → Except PyError (List JValue)
  | .arr xs => .ok xs
  | .str s => .ok (s.data.map fun c => .str ⟨[c]⟩)
  | .obj fs => .ok (fs.map fun kv => .str kv.1)
  | _ => .error .typeError

/-- Python slicing `v[:n]`: strings and lists are sliceable, everything else
raises `TypeError`. -/
def pySliceJ (n : Nat) : JValue → Except PyError JValue
  | .str s => .ok (.str (pyTakeStr n s))
  | .arr xs => .ok (.arr (xs.take n))
  | _ => .error .typeError

/-- Python `"message" in v` for the key-membership test on a decoded JSONL
record: dicts test key membership, lists test element membership, strings
test substring membership; other values raise `TypeError`. -/
def pyHasMessage : JValue → Except PyError Bool
  | .obj fs => .ok (fs.any fun kv => kv.1 == "message")
  | .arr xs => .ok (xs.any fun v => v == .str "message")
  | .str s => .ok (pyInStr "message" s)
  | _ => .error .typeError

/-- Python `v["message"]` after a successful `"message" in v` test: only a
dict yields the field value; lists and strings raise `TypeError` when
indexed with a string. -/
def pyItemMessage : JValue → Except PyError JValue
  | .obj fs => .ok ((jGet fs "message").getD .null)
  | _ => .error .typeError

/-- Python `v.get(k, d)`: a dict lookup with default; any non-dict value
raises `AttributeError`. -/
def pyDictGet (k : String) (d : JValue) : JValue → Except PyError JValue
  | .obj fs => .ok ((jGet fs k).getD d)
  | _ => .error .attributeError

/-! ## Datetime model

Python `datetime` values are modelled by their calendar fields plus an
optional UTC offset in minutes (`none` = a naive datetime). Comparison of
naive datetimes (which is all the script ever compares, after
`normalize_datetime`) is modelled by comparison of absolute microsecond
counts computed with the standard civil-calendar day-numbering. -/

structure DateTime where
  year : Int
  month : Int
  day : Int
  hour : Int
  minute : Int
  second : Int
  usec : Int
  tz : Option Int
deriving DecidableEq

/-- Day number of a civil date (days since 1970-01-01), the standard
era/year-of-era computation written with floor division. -/
def daysFromCivil (y m d : Int) : Int :=
  let y2 := y - (if m ≤ 2 then 1 else 0)
  let era := y2 / 400
  let yoe := y2 - era * 400
  let mp := (m + 9) % 12
  let doy := (153 * mp + 2) / 5 + d - 1
  let doe := yoe * 365 + yoe / 4 - yoe / 100 + doy
  era * 146097 + doe - 719468

/-- Civil date of a day number (inverse of `daysFromCivil`), floor-division
form. -/
def civilFromDays (z0 : Int) : Int × Int × Int :=
  let z := z0 + 719468
  let era := z / 146097
  let doe := z - era * 146097
  let yoe := (doe - doe / 1460 + doe / 36524 - doe / 146096) / 365
  let y := yoe + era * 400
  let doy := doe - (365 * yoe + yoe / 4 - yoe / 100)
  let mp := (5 * doy + 2) / 153
  let d := doy - (153 * mp + 2) / 5 + 1
  let m := mp + (if mp < 10 then 3 else -9)
  (y + (if m ≤ 2 then 1 else 0), m, d)

/-- Python `datetime.fromtimestamp(t)` for a timestamp given in microseconds
since the epoch: a naive datetime (the local clock is modelled as UTC). -/
def dtFromTimestamp (usecs : Int) : DateTime :=
  let us := usecs % 1000000
  let totalSeconds := usecs / 1000000
  let s := totalSeconds % 60
  let totalMinutes := totalSeconds / 60
  let mi := totalMinutes % 60
  let totalHours := totalMinutes / 60
  let h := totalHours % 24
  let days := totalHours / 24
  let ymd := civilFromDays days
  ⟨ymd.1, ymd.2.1, ymd.2.2, h, mi, s, us, none⟩

/-- Microseconds since the epoch of the calendar fields of a datetime,
ignoring any timezone (the "naive reading" of the fields). -/
def naiveMicros (dt : DateTime) : Int :=
  (((daysFromCivil dt.year dt.month dt.day * 24 + dt.hour) * 60 + dt.minute) * 60
      + dt.second) * 1000000 + dt.usec

/-- Python `datetime.min`: year 1, January 1, midnight, naive. -/
def dtMin : DateTime := ⟨1, 1, 1, 0, 0, 0, 0, none⟩

/-- The sort key `normalize_datetime(s["created"]) or datetime.min` used by
`group_sessions_by_date`, as an absolute microsecond count:
`normalize_datetime` turns an aware datetime into the naive UTC instant
(shift by the offset) and leaves naive ones alone, and Python's comparison
of the resulting naive datetimes coincides with comparison of these counts. -/
def sortKeyMicros : Option DateTime → Int
  | none => naiveMicros dtMin
  | some dt => naiveMicros dt - (dt.tz.getD 0) * 60000000

/-! ## `datetime.fromisoformat` model -/

/-- Numeric value of a list of decimal digit characters. -/
def digitsToNat (l : List Char) : Nat :=
  l.foldl (fun acc c => acc * 10 + (c.toNat - 48)) 0

/-- Read exactly `n` decimal digits from the front of the input. -/
def readDigits : Nat → List Char → Option (Nat × List Char)
  | 0, l => some (0, l)
  | n + 1, c :: cs =>
      if c.isDigit then
        match readDigits n cs with
        | some (v, rest) => some ((c.toNat - 48) * 10 ^ n + v, rest)
        | none => none
      else none
  | _ + 1, [] => none

/-- Consume an expected character from the front of the input. -/
def expectChar (c : Char) : List Char → Option (List Char)
  | d :: rest => if d = c then some rest else none
  | [] => none

/-- Number of days in a month of the proleptic Gregorian calendar. -/
def daysInMonth (y m : Int) : Int :=
  if m = 2 then
    if y % 4 = 0 ∧ (y % 100 ≠ 0 ∨ y % 400 = 0) then 29 else 28
  else if m = 4 ∨ m = 6 ∨ m = 9 ∨ m = 11 then 30
  else 31

/-- Fractional-second part of an ISO string after the dot: exactly 3 or 6
digits, yielding microseconds. -/
def readFrac (l : List Char) : Option (Nat × List Char) :=
  let ds := l.takeWhile Char.isDigit
  let rest := l.drop ds.length
  if ds.length = 3 then some (digitsToNat ds * 1000, rest)
  else if ds.length = 6 then some (digitsToNat ds, rest)
  else none

/-- UTC offset suffix `±HH:MM` of an ISO string, in minutes. -/
def readOffset : List Char → Option Int
  | c :: rest =>
      if c = '+' ∨ c = '-' then
        match readDigits 2 rest with
        | some (oh, r1) =>
            match expectChar ':' r1 with
            | some r2 =>
                match readDigits 2 r2 with
                | some (om, []) =>
                    if oh ≤ 23 ∧ om ≤ 59 then
                      some ((if c = '-' then -1 else 1) * ((oh : Int) * 60 + om))
                    else none
                | _ => none
            | none => none
        | none => none
      else none
  | [] => none

/-- Seconds-and-beyond part of an ISO time: optional `:SS`, optional
fractional seconds, optional offset; the whole input must be consumed. -/
def readSecondsTail : List Char → Option (Nat × Nat × Option Int)
  | [] => some (0, 0, none)
  | ':' :: r1 =>
      match readDigits 2 r1 with
      | some (ss, r2) =>
          if ss ≤ 59 then
            match r2 with
            | [] => some (ss, 0, none)
            | '.' :: r3 =>
                match readFrac r3 with
                | some (us, []) => some (ss, us, none)
                | some (us, r4) =>
                    match readOffset r4 with
                    | some off => some (ss, us, some off)
                    | none => none
                | none => none
            | r3 =>
                match readOffset r3 with
                | some off => some (ss, 0, some off)
                | none => none
          else none
      | none => none
  | r1 =>
      match readOffset r1 with
      | some off => some (0, 0, some off)
      | none => none

/-- Python `datetime.fromisoformat` restricted to the grammar
`YYYY-MM-DD[<sep>HH:MM[:SS[.fff|.ffffff]][±HH:MM]]` that the 3.7-3.10
parser accepts (the script feeds it strings whose `Z` suffix has already
been rewritten to `+00:00`); `none` models the `ValueError` outcome. -/
def pyFromIso (s : String) : Option DateTime :=
  match readDigits 4 s.data with
  | none => none
  | some (y, r1) =>
      match expectChar '-' r1 with
      | none => none
      | some r2 =>
          match readDigits 2 r2 with
          | none => none
          | some (m, r3) =>
              match expectChar '-' r3 with
              | none => none
              | some r4 =>
                  match readDigits 2 r4 with
                  | none => none
                  | some (d, r5) =>
                      if 1 ≤ y ∧ 1 ≤ m ∧ m ≤ 12 ∧ 1 ≤ d ∧ (d : Int) ≤ daysInMonth y m then
                        match r5 with
                        | [] => some ⟨y, m, d, 0, 0, 0, 0, none⟩
                        | _ :: r6 =>
                            match readDigits 2 r6 with
                            | none => none
                            | some (hh, r7) =>
                                match expectChar ':' r7 with
                                | none => none
                                | some r8 =>
                                    match readDigits 2 r8 with
                                    | none => none
                                    | some (mm, r9) =>
                                        if hh ≤ 23 ∧ mm ≤ 59 then
                                          match readSecondsTail r9 with
                                          | some (ss, us, off) =>
                                              some ⟨y, m, d, hh, mm, ss, us, off⟩
                                          | none => none
                                        else none
                      else none

/-! ## Data model: sessions, files, environment -/

/-- One session record, as built by `parse_session_index` (all nine keys
present) or by `find_orphan_sessions` (no `modified`/`git_branch` key:
modelled by `none` in those two fields, which otherwise hold the stored
JSON value). `created` is the parsed datetime or Python `None`. -/
structure Session where
  session_id : JValue
  summary : JValue
  first_prompt : JValue
  message_count : JValue
  created : Option DateTime
  modified : Option JValue
  project_path : JValue
  git_branch : Option JValue
  full_path : JValue
deriving DecidableEq

/-- One `<projects_dir>/<sub>/<stem>.jsonl` raw session log file of the
scanned tree: `statOk`/`ioOk` model whether `stat()` and `open()`/reading
succeed, `mtime` is `st_mtime` in microseconds since the epoch, and `lines`
holds each line's `json.loads` result (`none` = `JSONDecodeError`). -/
structure JsonlFile where
  sub : String
  stem : String
  statOk : Bool
  mtime : Int
  ioOk : Bool
  lines : List (Option JValue)
deriving DecidableEq

/-- Python `jsonl_file.name` (the filename). -/
def JsonlFile.name (f : JsonlFile) : String := f.stem ++ ".jsonl"

/-- Python `str(jsonl_file)` (the full path). -/
def filePath (pd : String) (f : JsonlFile) : String :=
  pd ++ "/" ++ f.sub ++ "/" ++ f.name

/-- The filesystem snapshot one invocation reads: the projects directory
path, the contents of the discovered `*/sessions-index.json` files in
discovery order (`none` = missing or not valid JSON, the two exceptions
`parse_session_index` catches), and the `*/*.jsonl` files in scan order. -/
structure Env where
  projectsDir : String
  indexes : List (Option JValue)
  files : List JsonlFile
deriving DecidableEq

/-! ## Index parsing (`parse_session_index`, lines 36-69) -/

/-- Lines 45-52: parse the `created` field value. A truthy string is parsed
after rewriting `Z` to `+00:00` (a `ValueError` is caught, yielding `None`);
a falsy value yields `None`; a truthy non-string raises `AttributeError`
at `.replace`. -/
def parseCreatedField (v : JValue) : Except PyError (Option DateTime) :=
  if jTruthy v then
    match v with
    | .str s => .ok (pyFromIso (pyReplace s "Z" "+00:00"))
    | _ => .error .attributeError
  else .ok none

/-- Lines 44-64: build one Session from one index entry (`data` fields are
passed for the `originalPath` fallback). A non-dict entry raises
`AttributeError` at the first `.get`; a non-sliceable `firstPrompt` raises
`TypeError`. -/
def sessionOfEntry (dataFields : List (String × JValue)) (entry : JValue) :
    Except PyError Session :=
  match entry with
  | .obj e =>
      match parseCreatedField ((jGet e "created").getD (.str "")) with
      | .error er => .error er
      | .ok created =>
      match pySliceJ 100 ((jGet e "firstPrompt").getD (.str "")) with
      | .error er => .error er
      | .ok fp =>
      .ok { session_id := (jGet e "sessionId").getD (.str "")
            summary := (jGet e "summary").getD (.str "No summary")
            first_prompt := fp
            message_count := (jGet e "messageCount").getD (.num 0)
            created := created
            modified := some ((jGet e "modified").getD (.str ""))
            project_path := (jGet e "projectPath").getD
              ((jGet dataFields "originalPath").getD (.str ""))
            git_branch := some ((jGet e "gitBranch").getD (.str ""))
            full_path := (jGet e "fullPath").getD (.str "") }
  | _ => .error .attributeError

/-- The `for entry in ...` loop of lines 43-64, appending one Session per
entry; the first raising entry aborts the whole call. -/
def parseEntries (dataFields : List (String × JValue)) :
    List JValue → Except PyError (List Session)
  | [] => .ok []
  | e :: rest =>
      match sessionOfEntry dataFields e with
      | .error er => .error er
      | .ok s =>
          match parseEntries dataFields rest with
          | .error er => .error er
          | .ok r => .ok (s :: r)

/-- Lines 36-69, `parse_session_index`: a missing or malformed file (the
`FileNotFoundError`/`JSONDecodeError` cases, modelled by `none`) yields an
empty list after a warning; valid JSON that is not an object raises
`AttributeError` at `data.get` (not caught); otherwise iterate
`data.get("entries", [])`. -/
def parse_session_index (content : Option JValue) : Except PyError (List Session) :=
  match content with
  | none => .ok []
  | some (.obj dataFields) =>
      match pyIterate ((jGet dataFields "entries").getD (.arr [])) with
      | .error er => .error er
      | .ok entries => parseEntries dataFields entries
  | some _ => .error .attributeError

/-! ## Orphan scanning (`find_orphan_sessions`, lines 72-114) -/

/-- Lines 77-78: skip files whose full path contains `subagents` or whose
filename starts with `agent-`. -/
def skipsFile (pd : String) (f : JsonlFile) : Bool :=
  pyInStr "subagents" (filePath pd f) || pyStartsWith f.name "agent-"

/-- Lines 89-100: first parsable line whose `message` field has a plain
string `content` yields that string truncated to 100 characters; malformed
lines are skipped; a decoded line on which `"message" in data` or the
subsequent subscripting/`.get` raises propagates (to the per-file handler). -/
def firstPromptFromLines : List (Option JValue) → Except PyError String
  | [] => .ok ""
  | none :: rest => firstPromptFromLines rest
  | some v :: rest =>
      match pyHasMessage v with
      | .error er => .error er
      | .ok hasMsg =>
          if hasMsg then
            match pyItemMessage v with
            | .error er => .error er
            | .ok mv =>
                match pyDictGet "content" (.str "") mv with
                | .error er => .error er
                | .ok (.str s) => .ok (pyTakeStr 100 s)
                | .ok _ => firstPromptFromLines rest
          else firstPromptFromLines rest

/-- Lines 84-110, the per-file `try` body: stat the file, read the first
prompt, and build the orphan Session (note: no `modified`/`git_branch`
key, `message_count` 0, `created` from the file mtime). -/
def processOrphan (pd : String) (f : JsonlFile) : Except PyError Session :=
  if !f.statOk then .error .osError
  else
    let created := dtFromTimestamp f.mtime
    if !f.ioOk then .error .osError
    else
      match firstPromptFromLines f.lines with
      | .error er => .error er
      | .ok fp =>
          .ok { session_id := .str f.stem
                summary := .str (if fp ≠ "" then
                                   "Unindexed session: " ++ pyTakeStr 50 fp ++ "..."
                                 else "Unindexed session")
                first_prompt := .str fp
                message_count := .num 0
                created := some created
                modified := none
                project_path := .str (pyReplace (pd ++ "/" ++ f.sub) (pd ++ "/") "")
                git_branch := none
                full_path := .str (filePath pd f) }

/-- Lines 76-113, one iteration of the scan loop: skip excluded files, skip
indexed stems, and catch any per-file exception (warning, file omitted). -/
def orphanOf (pd : String) (ids : List JValue) (f : JsonlFile) : Option Session :=
  if skipsFile pd f then none
  else if ids.contains (.str f.stem) then none
  else
    match processOrphan pd f with
    | .ok s => some s
    | .error _ => none

/-- Lines 72-114, `find_orphan_sessions`: one orphan Session per eligible
un-indexed file, in scan order. -/
def find_orphan_sessions (env : Env) (indexed_sessions : List JValue) : List Session :=
  env.files.filterMap (orphanOf env.projectsDir indexed_sessions)

/-! ## Collection (`collect_all_sessions`, lines 117-136) -/

/-- The index loop of lines 126-130: concatenate the parse results of all
discovered index files; a raising parse aborts collection. -/
def collectIndexed : List (Option JValue) → Except PyError (List Session)
  | [] => .ok []
  | ix :: rest =>
      match parse_session_index ix with
      | .error er => .error er
      | .ok s =>
          match collectIndexed rest with
          | .error er => .error er
          | .ok r => .ok (s ++ r)

/-- Lines 117-136, `collect_all_sessions`: all indexed sessions in
discovery order, then the orphans computed against the id set of all
indexed sessions. -/
def collect_all_sessions (env : Env) : Except PyError (List Session) :=
  match collectIndexed env.indexes with
  | .error e => .error e
  | .ok allIndexed =>
      .ok (allIndexed ++ find_orphan_sessions env (allIndexed.map Session.session_id))

/-! ## Date grouping (`group_sessions_by_date`, lines 150-167) -/

/-- Zero-padded decimal rendering of a (nonnegative) field for `strftime`. -/
def padInt (w : Nat) (n : Int) : String :=
  let s := toString n
  ⟨List.replicate (w - s.data.length) '0' ++ s.data⟩

/-- Line 156: the `strftime("%Y-%m-%d")` date key of a session's `created`
field, taken on the fields as recorded (no normalization); line 159: the
literal `Unknown` when `created` is `None`. -/
def dateKeyOf (s : Session) : String :=
  match s.created with
  | none => "Unknown"
  | some c => padInt 4 c.year ++ "-" ++ padInt 2 c.month ++ "-" ++ padInt 2 c.day

/-- Stable insertion of `x` into `l`: `x` goes before the first element not
strictly below it. -/
def pyInsertSorted (lt : α → α → Bool) (x : α) : List α → List α
  | [] => [x]
  | y :: ys => if lt y x then y :: pyInsertSorted lt x ys else x :: y :: ys

/-- Python's stable ascending sort (`list.sort`/`sorted`). Any stable sort
against the same strict comparison produces the same list, so insertion
sort models it exactly. -/
def pySortStable (lt : α → α → Bool) : List α → List α
  | [] => []
  | x :: xs => pyInsertSorted lt x (pySortStable lt xs)

/-- Line 164's sort key comparison between two sessions. -/
def sessLt (a b : Session) : Bool :=
  decide (sortKeyMicros a.created < sortKeyMicros b.created)

/-- `defaultdict` key order: first-occurrence order of appended keys. -/
def insertKey (ks : List String) (k : String) : List String :=
  if k ∈ ks then ks else ks ++ [k]

/-- The distinct date keys of a session list in first-occurrence order. -/
def bucketKeys (sessions : List Session) : List String :=
  sessions.foldl (fun ks s => insertKey ks (dateKeyOf s)) []

/-- Lines 150-167, `group_sessions_by_date`: bucket sessions by date key in
input order, sort each bucket by the normalized-timestamp key (stably), and
return the buckets sorted by key string (`dict(sorted(...))`; keys are
distinct so only the strings are ever compared). -/
def group_sessions_by_date (sessions : List Session) : List (String × List Session) :=
  pySortStable (fun a b => decide (a.1 < b.1))
    ((bucketKeys sessions).map fun k =>
      (k, pySortStable sessLt (sessions.filter fun s => dateKeyOf s == k)))

/-! ## Path decoding (`decode_project_dir_name`, lines 170-196) -/

/-- The merge loop of lines 181-194, fuel-indexed (each iteration consumes
at least one part, so fuel equal to the number of parts suffices): try to
join the next two parts with an underscore, keep the merge when the
cumulative path exists (`ex` is the `Path(...).exists()` oracle). -/
def decodeFuel (ex : String → Bool) : Nat → List (List Char) → List (List Char) →
    List (List Char)
  | 0, acc, parts => acc ++ parts
  | _ + 1, acc, [] => acc
  | _ + 1, acc, [p] => acc ++ [p]
  | fuel + 1, acc, p :: q :: rest =>
      let combined := p ++ '_' :: q
      if ex ⟨'/' :: joinWithChar '/' (acc ++ [combined])⟩ then
        decodeFuel ex fuel (acc ++ [combined]) rest
      else
        decodeFuel ex fuel (acc ++ [p]) (q :: rest)

/-- Lines 170-196, `decode_project_dir_name`: names not starting with the
delimiter are returned unchanged; otherwise split on `-` and greedily
re-merge adjacent parts with `_` when the merged cumulative path exists. -/
def decode_project_dir_name (ex : String → Bool) (encoded : String) : String :=
  if !pyStartsWith encoded "-" then encoded
  else
    let parts := splitOnChar '-' (encoded.data.drop 1)
    ⟨'/' :: joinWithChar '/' (decodeFuel ex parts.length [] parts)⟩

/-! ## Transcript lookup and viewing (lines 310-424) -/

/-- The match-collecting loop of lines 315-320: eligible files (not
excluded by the `subagents`/`agent-` rule) whose stem contains the query
as a substring, in scan order. -/
def sessionFileMatches (q : String) (pd : String) (files : List JsonlFile) :
    List JsonlFile :=
  files.filter fun f => !skipsFile pd f && pyInStr q f.stem

/-- Lines 310-329, `find_session_file`: a unique match is returned; several
matches print the candidate list (first component) and return `None`; no
match returns `None`. -/
def find_session_file (q : String) (pd : String) (files : List JsonlFile) :
    List String × Option JsonlFile :=
  let ms := sessionFileMatches q pd files
  if ms.length = 1 then ([], ms.head?)
  else if 1 < ms.length then
    (("Multiple sessions match \x27" ++ q ++ "\x27:") :: ms.map (fun m => "  " ++ m.stem),
     none)
  else ([], none)

mutual

/-- Python `repr` of a JSON value (as `str` uses it inside containers);
internal quote escaping is not modelled. -/
def pyRepr : JValue → String
  | .null => "None"
  | .bool true => "True"
  | .bool false => "False"
  | .num n => toString n
  | .str s => "\x27" ++ s ++ "\x27"
  | .arr xs => "[" ++ String.intercalate ", " (pyReprList xs) ++ "]"
  | .obj fs => "\x7b" ++ String.intercalate ", " (pyReprFields fs) ++ "\x7d"

/-- `repr` of each element of a JSON array. -/
def pyReprList : List JValue → List String
  | [] => []
  | v :: vs => pyRepr v :: pyReprList vs

/-- `repr` of each `key: value` pair of a JSON object. -/
def pyReprFields : List (String × JValue) → List String
  | [] => []
  | (k, v) :: fs => ("\x27" ++ k ++ "\x27: " ++ pyRepr v) :: pyReprFields fs

end

/-- Python `str(v)` / f-string interpolation of a JSON value. -/
def pyToStr : JValue → String
  | .str s => s
  | .null => "None"
  | .bool true => "True"
  | .bool false => "False"
  | .num n => toString n
  | .arr xs => pyRepr (.arr xs)
  | .obj fs => pyRepr (.obj fs)

/-- Lines 339-368: render one content block to an optional part string
(`none` = the block contributes nothing). A `text` block whose `text`
value is not a string would make the final `"\n".join` raise `TypeError`;
that error is modelled here at the block. -/
def extractBlock : JValue → Except PyError (Option String)
  | .obj fs =>
      if jGet fs "type" == some (.str "text") then
        match (jGet fs "text").getD (.str "") with
        | .str s => .ok (some s)
        | _ => .error .typeError
      else if jGet fs "type" == some (.str "tool_use") then do
        let toolName := (jGet fs "name").getD (.str "unknown")
        let toolInput := (jGet fs "input").getD (.obj [])
        if toolName == .str "Read" then do
          let v ← pyDictGet "file_path" (.str "?") toolInput
          .ok (some ("[Reading: " ++ pyToStr v ++ "]"))
        else if toolName == .str "Edit" then do
          let v ← pyDictGet "file_path" (.str "?") toolInput
          .ok (some ("[Editing: " ++ pyToStr v ++ "]"))
        else if toolName == .str "Write" then do
          let v ← pyDictGet "file_path" (.str "?") toolInput
          .ok (some ("[Writing: " ++ pyToStr v ++ "]"))
        else if toolName == .str "Bash" then do
          let c ← pyDictGet "command" (.str "") toolInput
          let c80 ← pySliceJ 80 c
          .ok (some ("[Running: " ++ pyToStr c80 ++ "]"))
        else if toolName == .str "Grep" then do
          let v ← pyDictGet "pattern" (.str "?") toolInput
          .ok (some ("[Searching: " ++ pyToStr v ++ "]"))
        else if toolName == .str "Glob" then do
          let v ← pyDictGet "pattern" (.str "?") toolInput
          .ok (some ("[Finding: " ++ pyToStr v ++ "]"))
        else .ok (some ("[Tool: " ++ pyToStr toolName ++ "]"))
      else if jGet fs "type" == some (.str "tool_result") then
        let res := (jGet fs "content").getD (.str "")
        let res2 :=
          match res with
          | .str s => JValue.str (if 200 < s.length then pyTakeStr 200 s ++ "..." else s)
          | other => other
        .ok (some ("[Result: " ++ pyToStr res2 ++ "]"))
      else .ok none
  | .str s => .ok (some s)
  | _ => .ok none

/-- The block loop of lines 338-368. -/
def extractBlocks : List JValue → Except PyError (List String)
  | [] => .ok []
  | b :: bs => do
      let s ← extractBlock b
      let r ← extractBlocks bs
      match s with
      | some t => .ok (t :: r)
      | none => .ok r

/-- Lines 332-370, `extract_message_content`. -/
def extract_message_content (v : JValue) : Except PyError String :=
  match v with
  | .str s => .ok s
  | .arr blocks => do
      let parts ← extractBlocks blocks
      .ok (String.intercalate "\n" parts)
  | other => .ok (pyToStr other)

/-- The message loop of lines 385-419: returns the produced lines and the
final message count. Only `json.JSONDecodeError` is caught per line; other
exceptions propagate out of `view_session`. -/
def renderLoop (maxM : Int) : List (Option JValue) → Int → Except PyError (List String × Int)
  | [], count => .ok ([], count)
  | line :: rest, count =>
      if 0 < maxM ∧ maxM ≤ count then
        .ok (["\n... truncated (showing " ++ toString maxM ++ " messages) ..."], count)
      else
        match line with
        | none => renderLoop maxM rest count
        | some data => do
            let hasMsg ← pyHasMessage data
            if !hasMsg then renderLoop maxM rest count
            else do
              let msg ← pyItemMessage data
              let roleV ← pyDictGet "role" (.str "unknown") msg
              let contentV ← pyDictGet "content" (.str "") msg
              let content ← extract_message_content contentV
              if content.trim = "" then renderLoop maxM rest count
              else
                let seg : List String :=
                  if roleV == .str "user" then ["## User\n", content, ""]
                  else if roleV == .str "assistant" then
                    ["## Assistant\n",
                     if 2000 < content.length then pyTakeStr 2000 content ++ "\n\n... (truncated)"
                     else content,
                     ""]
                  else []
                let r ← renderLoop maxM rest (count + 1)
                .ok (seg ++ r.1, r.2)

/-- Lines 373-424, `view_session`: resolve the identifier (candidate-list
prints are the first component of the result), return the not-found string
when no unique file was found, otherwise render the transcript. -/
def view_session (q : String) (env : Env) (maxMessages : Int) :
    Except PyError (List String × String) :=
  match find_session_file q env.projectsDir env.files with
  | (prints, none) => .ok (prints, "Session not found: " ++ q)
  | (prints, some f) => do
      if f.ioOk then pure () else throw .osError
      let body ← renderLoop maxMessages f.lines 0
      let header := ["# Session: " ++ f.stem,
                     "**File:** `" ++ filePath env.projectsDir f ++ "`\n",
                     "---\n"]
      let closing := if body.2 = 0 then ["No messages found in session."] else []
      .ok (prints, String.intercalate "\n" (header ++ body.1 ++ closing))

/-! ## Collection invariants -/

theorem collect_ok_decomp {env : Env} {l : List Session}
    (h : collect_all_sessions env = .ok l) :
    ∃ I, collectIndexed env.indexes = .ok I ∧
      l = I ++ find_orphan_sessions env (I.map Session.session_id) := by
  unfold collect_all_sessions at h
  cases hI : collectIndexed env.indexes with
  | error e => rw [hI] at h; exact Except.noConfusion h
  | ok I =>
      rw [hI] at h
      refine ⟨I, rfl, ?_⟩
      injection h with h
      exact h.symm

theorem processOrphan_ok_spec {pd : String} {f : JsonlFile} {o : Session}
    (h : processOrphan pd f = .ok o) :
    o.session_id = .str f.stem ∧ o.modified = none ∧ o.git_branch = none := by
  unfold processOrphan at h
  split at h
  · exact Except.noConfusion h
  · split at h
    · exact Except.noConfusion h
    · split at h
      · exact Except.noConfusion h
      · injection h with h
        rw [← h]
        exact ⟨rfl, rfl, rfl⟩

theorem orphan_mem_spec {env : Env} {ids : List JValue} {o : Session}
    (ho : o ∈ find_orphan_sessions env ids) :
    ∃ f, f ∈ env.files ∧ skipsFile env.projectsDir f = false ∧
      ids.contains (.str f.stem) = false ∧ processOrphan env.projectsDir f = .ok o := by
  unfold find_orphan_sessions at ho
  rcases List.mem_filterMap.mp ho with ⟨f, hf, hsome⟩
  refine ⟨f, hf, ?_⟩
  unfold orphanOf at hsome
  split at hsome
  · exact Option.noConfusion hsome
  · next h1 =>
      split at hsome
      · exact Option.noConfusion hsome
      · next h2 =>
          split at hsome
          · next s hp =>
              injection hsome with hsome
              exact ⟨by simpa using h1, by simpa using h2, hsome ▸ hp⟩
          · exact Option.noConfusion hsome

theorem orphan_id_not_in_ids {env : Env} {ids : List JValue} {o : Session}
    (ho : o ∈ find_orphan_sessions env ids) :
    ∀ id ∈ ids, o.session_id ≠ id := by
  rcases orphan_mem_spec ho with ⟨f, _, _, hc, hp⟩
  intro id hmem heq
  have hid : o.session_id = .str f.stem := (processOrphan_ok_spec hp).1
  rw [hid] at heq
  rw [← heq] at hmem
  exact absurd (List.elem_iff.mpr hmem) (by simpa using hc)

/-- C1 (amended): after collection, `session_id` uniqueness holds across
the indexed/orphan boundary — the output is the indexed sessions followed
by the orphans, and no orphan shares a `session_id` with any indexed
session. (Uniqueness among the indexed sessions themselves does not hold:
the same identifier occurring in two index files occurs twice in the
output, see the counterexample.) -/
theorem collect_indexed_orphan_id_disjoint (env : Env) (l : List Session)
    (h : collect_all_sessions env = .ok l) :
    ∃ I : List Session,
      collectIndexed env.indexes = .ok I ∧
      l = I ++ find_orphan_sessions env (I.map Session.session_id) ∧
      ∀ s ∈ I, ∀ o ∈ find_orphan_sessions env (I.map Session.session_id),
        o.session_id ≠ s.session_id := by
  rcases collect_ok_decomp h with ⟨I, hI, hl⟩
  refine ⟨I, hI, hl, ?_⟩
  intro s hs o hom
  exact orphan_id_not_in_ids hom _ (List.mem_map_of_mem _ hs)

/-- An index file whose single entry has sessionId `x`. -/
def ixDup : Option JValue :=
  some (.obj [("entries", .arr [.obj [("sessionId", .str "x")]])])

/-- Two index files both carrying sessionId `x`, no log files. -/
def envDup : Env := ⟨"/p", [ixDup, ixDup], []⟩

/-- The Session parsed from `ixDup`'s entry. -/
def sessX : Session :=
  { session_id := .str "x", summary := .str "No summary", first_prompt := .str ""
    message_count := .num 0, created := none, modified := some (.str "")
    project_path := .str "", git_branch := some (.str ""), full_path := .str "" }

/-- C1 is false as stated: when the same identifier occurs in two index
files, collection returns it twice — positions 0 and 1 of the output carry
the same `session_id`. -/
theorem collect_duplicate_indexed_ids :
    collect_all_sessions envDup = .ok [sessX, sessX] ∧
    ([sessX, sessX].get ⟨0, by decide⟩).session_id
      = ([sessX, sessX].get ⟨1, by decide⟩).session_id :=
  ⟨rfl, rfl⟩

/-- An index file whose single entry has sessionId `a`. -/
def ixA : Option JValue :=
  some (.obj [("entries", .arr [.obj [("sessionId", .str "a")]])])

/-- An environment with one index (sessionId `a`) and log files `a.jsonl`
(indexed) and `b.jsonl` (orphan). -/
def envM : Env := ⟨"/p", [ixA], [⟨"proj", "a", true, 0, true, []⟩, ⟨"proj", "b", true, 0, true, []⟩]⟩

/-- The Session parsed from `ixA`'s entry. -/
def sessA : Session :=
  { session_id := .str "a", summary := .str "No summary", first_prompt := .str ""
    message_count := .num 0, created := none, modified := some (.str "")
    project_path := .str "", git_branch := some (.str ""), full_path := .str "" }

/-- The orphan Session promoted from `b.jsonl` in `envM`. -/
def orphB : Session :=
  { session_id := .str "b", summary := .str "Unindexed session", first_prompt := .str ""
    message_count := .num 0, created := some (dtFromTimestamp 0), modified := none
    project_path := .str "proj", git_branch := none, full_path := .str "/p/proj/b.jsonl" }

theorem collect_indexed_orphan_id_disjoint_witness :
    collect_all_sessions envM = .ok [sessA, orphB] ∧
    (∃ I : List Session,
      collectIndexed envM.indexes = .ok I ∧
      [sessA, orphB] = I ++ find_orphan_sessions envM (I.map Session.session_id) ∧
      ∀ s ∈ I, ∀ o ∈ find_orphan_sessions envM (I.map Session.session_id),
        o.session_id ≠ s.session_id) :=
  ⟨rfl, collect_indexed_orphan_id_disjoint envM [sessA, orphB] rfl⟩

/-- C2: `find_orphan_sessions` is called with the identifiers of all
indexed sessions across all indexes, and never emits a session whose
identifier is in that set — an indexed identifier is never also reported
as an orphan. -/
theorem indexed_id_never_reported_as_orphan (env : Env) (I : List Session)
    (hI : collectIndexed env.indexes = .ok I)
    (id : JValue) (hid : id ∈ I.map Session.session_id) :
    collect_all_sessions env =
      .ok (I ++ find_orphan_sessions env (I.map Session.session_id)) ∧
    ∀ o ∈ find_orphan_sessions env (I.map Session.session_id), o.session_id ≠ id := by
  constructor
  · unfold collect_all_sessions
    rw [hI]
  · intro o ho
    exact orphan_id_not_in_ids ho id hid

theorem sessionOfEntry_fields {df : List (String × JValue)} {e : JValue} {s : Session}
    (h : sessionOfEntry df e = .ok s) :
    s.modified.isSome ∧ s.git_branch.isSome := by
  unfold sessionOfEntry at h
  split at h
  · split at h
    · exact Except.noConfusion h
    · split at h
      · exact Except.noConfusion h
      · injection h with h
        rw [← h]
        exact ⟨rfl, rfl⟩
  · exact Except.noConfusion h

theorem parseEntries_fields {df : List (String × JValue)} {es : List JValue}
    {ss : List Session} (h : parseEntries df es = .ok ss) :
    ∀ s ∈ ss, s.modified.isSome ∧ s.git_branch.isSome := by
  induction es generalizing ss with
  | nil =>
      unfold parseEntries at h
      injection h with h
      rw [← h]
      intro s hs
      exact absurd hs (List.not_mem_nil s)
  | cons e rest ih =>
      unfold parseEntries at h
      split at h
      · exact Except.noConfusion h
      · next s1 hs1 =>
          split at h
          · exact Except.noConfusion h
          · next r hr =>
              injection h with h
              rw [← h]
              intro s hs
              rcases List.mem_cons.mp hs with he | ht
              · exact he ▸ sessionOfEntry_fields hs1
              · exact ih hr s ht

theorem parse_session_index_fields {ix : Option JValue} {ss : List Session}
    (h : parse_session_index ix = .ok ss) :
    ∀ s ∈ ss, s.modified.isSome ∧ s.git_branch.isSome := by
  unfold parse_session_index at h
  split at h
  · injection h with h
    rw [← h]
    intro s hs
    exact absurd hs (List.not_mem_nil s)
  · split at h
    · exact Except.noConfusion h
    · exact parseEntries_fields h
  · exact Except.noConfusion h

theorem collectIndexed_fields {ixs : List (Option JValue)} {I : List Session}
    (h : collectIndexed ixs = .ok I) :
    ∀ s ∈ I, s.modified.isSome ∧ s.git_branch.isSome := by
  induction ixs generalizing I with
  | nil =>
      unfold collectIndexed at h
      injection h with h
      rw [← h]
      intro s hs
      exact absurd hs (List.not_mem_nil s)
  | cons ix rest ih =>
      unfold collectIndexed at h
      split at h
      · exact Except.noConfusion h
      · next s1 hs1 =>
          split at h
          · exact Except.noConfusion h
          · next r hr =>
              injection h with h
              rw [← h]
              intro s hs
              rcases List.mem_append.mp hs with he | ht
              · exact parse_session_index_fields hs1 s he
              · exact ih hr s ht

/-- C8 (amended): every indexed session carries all nine record fields
(in particular `modified` and `git_branch`), but orphan sessions are
built without the `modified` and `git_branch` keys — the collected list
decomposes into indexed sessions with both keys present followed by
orphans with both keys absent. -/
theorem collected_session_field_presence (env : Env) (l : List Session)
    (h : collect_all_sessions env = .ok l) :
    ∃ I, collectIndexed env.indexes = .ok I ∧
      l = I ++ find_orphan_sessions env (I.map Session.session_id) ∧
      (∀ s ∈ I, s.modified.isSome ∧ s.git_branch.isSome) ∧
      (∀ o ∈ find_orphan_sessions env (I.map Session.session_id),
        o.modified = none ∧ o.git_branch = none) := by
  rcases collect_ok_decomp h with ⟨I, hI, hl⟩
  refine ⟨I, hI, hl, collectIndexed_fields hI, ?_⟩
  intro o ho
  rcases orphan_mem_spec ho with ⟨f, _, _, _, hp⟩
  exact ⟨(processOrphan_ok_spec hp).2.1, (processOrphan_ok_spec hp).2.2⟩

/-- An environment with no index files and one orphan log file `z.jsonl`. -/
def envC8 : Env := ⟨"/p", [], [⟨"proj", "z", true, 0, true, []⟩]⟩

/-- The orphan Session promoted from `z.jsonl` in `envC8`. -/
def orphZ : Session :=
  { session_id := .str "z", summary := .str "Unindexed session", first_prompt := .str ""
    message_count := .num 0, created := some (dtFromTimestamp 0), modified := none
    project_path := .str "proj", git_branch := none, full_path := .str "/p/proj/z.jsonl" }

/-- C8 is false as stated: a collected session promoted from an orphan log
file carries no `modified` and no `git_branch` field. -/
theorem orphan_session_missing_modified_git_branch :
    collect_all_sessions envC8 = .ok [orphZ] ∧
    orphZ.modified = none ∧ orphZ.git_branch = none :=
  ⟨rfl, rfl, rfl⟩

theorem collected_session_field_presence_witness :
    collect_all_sessions envC8 = .ok [orphZ] ∧
    (∃ I, collectIndexed envC8.indexes = .ok I ∧
      [orphZ] = I ++ find_orphan_sessions envC8 (I.map Session.session_id) ∧
      (∀ s ∈ I, s.modified.isSome ∧ s.git_branch.isSome) ∧
      (∀ o ∈ find_orphan_sessions envC8 (I.map Session.session_id),
        o.modified = none ∧ o.git_branch = none)) :=
  ⟨rfl, collected_session_field_presence envC8 [orphZ] rfl⟩

theorem indexed_id_never_reported_as_orphan_witness :
    (collect_all_sessions envM =
      .ok ([sessA] ++ find_orphan_sessions envM ([sessA].map Session.session_id))) ∧
    orphB.session_id ≠ JValue.str "a" :=
  ⟨(indexed_id_never_reported_as_orphan envM [sessA] rfl (.str "a") (by decide)).1,
   (indexed_id_never_reported_as_orphan envM [sessA] rfl (.str "a") (by decide)).2
     orphB (by decide)⟩

/-! ## Error handling of the index parser -/

/-- C4 (amended): a missing or malformed index file (missing, or not valid
JSON — the `FileNotFoundError`/`JSONDecodeError` cases) yields an empty
list without raising, and collection proceeds over the remaining index
files exactly as if the bad file were absent. (Valid JSON of unexpected
shape is not covered: see the counterexample.) -/
theorem parse_session_index_missing_or_malformed_ok (rest : List (Option JValue)) :
    parse_session_index none = .ok [] ∧
    collectIndexed (none :: rest) = collectIndexed rest := by
  refine ⟨rfl, ?_⟩
  cases hr : collectIndexed rest with
  | error e => simp [collectIndexed, parse_session_index, hr]
  | ok r => simp [collectIndexed, parse_session_index, hr]

/-- An environment whose single index file contains valid JSON with an
array at top level. -/
def envBadIndex : Env := ⟨"/p", [some (.arr [])], []⟩

/-- C4 is false as stated: an index file containing valid JSON whose top
level is an array (not an object) raises `AttributeError` at `data.get`,
and that error aborts the whole collection instead of being skipped. -/
theorem parse_session_index_raises_on_array :
    parse_session_index (some (.arr [])) = .error .attributeError ∧
    collect_all_sessions envBadIndex = .error .attributeError :=
  ⟨rfl, rfl⟩

/-- C5 (amended): for every string `created` value the parse never raises —
the result is exactly `fromisoformat` applied to the string with every `Z`
rewritten to `+00:00`, with unparseable strings yielding an absent value
(the `ValueError` is caught). A truthy non-string `created` value instead
raises `AttributeError` (see the counterexample). -/
theorem created_string_parsing_never_raises (s : String) :
    parseCreatedField (.str s) = .ok (pyFromIso (pyReplace s "Z" "+00:00")) := by
  unfold parseCreatedField
  by_cases hs : s = ""
  · subst hs
    rfl
  · simp [jTruthy, hs]

/-- C5 is false as stated: a numeric (truthy, non-string) `created` value
raises `AttributeError` at `.replace`, aborting the parse of the whole
index file rather than yielding an absent `created`. -/
theorem parse_session_index_raises_on_numeric_created :
    parseCreatedField (.num 1) = .error .attributeError ∧
    parse_session_index (some (.obj [("entries", .arr [.obj [("created", .num 1)]])]))
      = .error .attributeError :=
  ⟨rfl, rfl⟩

/-! ## Exclusion of subagent files -/

theorem containsL_nil_left (l : List Char) : containsL [] l = true := by
  cases l with
  | nil => rfl
  | cons c cs => simp [containsL, isPrefixL]

theorem splitOnChar_head_prefix {sep : Char} {l s : List Char} {ss : List (List Char)}
    (h : splitOnChar sep l = s :: ss) : isPrefixL s l = true := by
  induction l generalizing s ss with
  | nil =>
      unfold splitOnChar at h
      injection h with h1 _
      rw [← h1]
      rfl
  | cons c cs ih =>
      unfold splitOnChar at h
      by_cases hc : c = sep
      · rw [if_pos hc] at h
        injection h with h1 _
        rw [← h1]
        rfl
      · rw [if_neg hc] at h
        cases hr : splitOnChar sep cs with
        | nil => rw [hr] at h; injection h with h1 _; rw [← h1]; simp [isPrefixL]
        | cons s2 ss2 =>
            rw [hr] at h
            injection h with h1 _
            rw [← h1]
            simp only [isPrefixL, Bool.and_eq_true, decide_eq_true_eq]
            exact ⟨by trivial, ih hr⟩

theorem mem_splitOnChar_contains {sep : Char} {x l : List Char}
    (h : x ∈ splitOnChar sep l) : containsL x l = true := by
  induction l generalizing x with
  | nil =>
      unfold splitOnChar at h
      rw [List.mem_singleton.mp h]
      rfl
  | cons c cs ih =>
      unfold splitOnChar at h
      by_cases hc : c = sep
      · rw [if_pos hc] at h
        rcases List.mem_cons.mp h with he | ht
        · rw [he]
          exact containsL_nil_left _
        · simp only [containsL, Bool.or_eq_true]
          exact Or.inr (ih ht)
      · rw [if_neg hc] at h
        cases hr : splitOnChar sep cs with
        | nil =>
            rw [hr] at h
            rw [List.mem_singleton.mp h]
            simp [containsL, isPrefixL]
        | cons s2 ss2 =>
            rw [hr] at h
            rcases List.mem_cons.mp h with he | ht
            · rw [he]
              simp only [containsL, Bool.or_eq_true]
              left
              simp only [isPrefixL, Bool.and_eq_true, decide_eq_true_eq]
              exact ⟨by trivial, splitOnChar_head_prefix hr⟩
            · simp only [containsL, Bool.or_eq_true]
              exact Or.inr (ih (hr ▸ List.mem_cons_of_mem _ ht))

/-- The path segments of a path string (chunks between `/` separators). -/
def pathSegments (p : String) : List String :=
  (splitOnChar '/' p.data).map String.mk

theorem skipsFile_of_excluded {pd : String} {f : JsonlFile}
    (h : "subagents" ∈ pathSegments (filePath pd f) ∨
         pyStartsWith f.name "agent-" = true) :
    skipsFile pd f = true := by
  unfold skipsFile
  rw [Bool.or_eq_true]
  rcases h with hseg | hpre
  · left
    unfold pathSegments at hseg
    rcases List.mem_map.mp hseg with ⟨lc, hmem, heq⟩
    have hlc : lc = "subagents".data := congrArg String.data heq
    unfold pyInStr
    rw [← hlc]
    exact mem_splitOnChar_contains hmem
  · right
    exact hpre

theorem find_session_file_some_mem {q pd : String} {files : List JsonlFile}
    {g : JsonlFile} (h : (find_session_file q pd files).2 = some g) :
    g ∈ sessionFileMatches q pd files := by
  simp only [find_session_file] at h
  split at h
  · next hlen =>
      cases hm : sessionFileMatches q pd files with
      | nil => rw [hm] at hlen; exact absurd hlen (by simp)
      | cons m ms =>
          rw [hm] at h
          injection h with h
          subst h
          exact List.mem_cons_self m ms
  · split at h
    · exact Option.noConfusion h
    · exact Option.noConfusion h

/-- C6: a file under a `subagents` path segment, or whose filename starts
with `agent-`, never contributes a session to the collected list (removing
it leaves `find_orphan_sessions` unchanged), is never among the transcript
viewer's matches for any query, and is never the file `find_session_file`
returns. -/
theorem excluded_files_never_collected_or_matched
    (pd : String) (ixs : List (Option JValue)) (l₁ l₂ : List JsonlFile)
    (f : JsonlFile) (ids : List JValue) (q : String)
    (h : "subagents" ∈ pathSegments (filePath pd f) ∨
         pyStartsWith f.name "agent-" = true) :
    find_orphan_sessions ⟨pd, ixs, l₁ ++ f :: l₂⟩ ids
      = find_orphan_sessions ⟨pd, ixs, l₁ ++ l₂⟩ ids ∧
    f ∉ sessionFileMatches q pd (l₁ ++ f :: l₂) ∧
    (find_session_file q pd (l₁ ++ f :: l₂)).2 ≠ some f := by
  have hskip : skipsFile pd f = true := skipsFile_of_excluded h
  have hnotmem : f ∉ sessionFileMatches q pd (l₁ ++ f :: l₂) := by
    intro hmem
    have hpred := (List.mem_filter.mp hmem).2
    rw [hskip] at hpred
    simp at hpred
  refine ⟨?_, hnotmem, ?_⟩
  · unfold find_orphan_sessions
    rw [List.filterMap_append, List.filterMap_append]
    congr 1
    rw [List.filterMap_cons]
    have : orphanOf pd ids f = none := by
      unfold orphanOf
      rw [if_pos hskip]
    rw [this]
  · intro heq
    exact hnotmem (find_session_file_some_mem heq)

/-- A log file living in a `subagents` project subdirectory. -/
def fSub : JsonlFile := ⟨"subagents", "x", true, 0, true, []⟩

theorem excluded_files_never_collected_or_matched_witness :
    ("subagents" ∈ pathSegments (filePath "/r" fSub) ∨
      pyStartsWith fSub.name "agent-" = true) ∧
    (find_orphan_sessions ⟨"/r", [], [fSub]⟩ [] = find_orphan_sessions ⟨"/r", [], []⟩ [] ∧
     fSub ∉ sessionFileMatches "x" "/r" [fSub] ∧
     (find_session_file "x" "/r" [fSub]).2 ≠ some fSub) :=
  ⟨Or.inl (by decide),
   excluded_files_never_collected_or_matched "/r" [] [] [] fSub [] "x" (Or.inl (by decide))⟩

/-! ## Path decoding round-trip -/

/-- The encoded directory name of the absolute path with the given
segments: every `/` replaced by `-` (so `/a/b` becomes `-a-b`). -/
def encodePath (segs : List (List Char)) : String :=
  ⟨'-' :: joinWithChar '-' segs⟩

/-- The absolute path string of a segment list (`/a/b` for `[a, b]`). -/
def pathString (segs : List (List Char)) : String :=
  ⟨'/' :: joinWithChar '/' segs⟩

theorem splitOnChar_no_sep {sep : Char} {s : List Char} (hs : sep ∉ s) :
    splitOnChar sep s = [s] := by
  induction s with
  | nil => rfl
  | cons c cs ih =>
      have hc : ¬c = sep := fun he => hs (he ▸ List.mem_cons_self c cs)
      have hcs : sep ∉ cs := fun hm => hs (List.mem_cons_of_mem c hm)
      unfold splitOnChar
      rw [if_neg hc, ih hcs]

theorem splitOnChar_append_sep {sep : Char} {s : List Char} (t : List Char)
    (hs : sep ∉ s) : splitOnChar sep (s ++ sep :: t) = s :: splitOnChar sep t := by
  induction s with
  | nil =>
      show splitOnChar sep (sep :: t) = [] :: splitOnChar sep t
      simp [splitOnChar]
  | cons c cs ih =>
      have hc : ¬c = sep := fun he => hs (he ▸ List.mem_cons_self c cs)
      have hcs : sep ∉ cs := fun hm => hs (List.mem_cons_of_mem c hm)
      show splitOnChar sep (c :: (cs ++ sep :: t)) = (c :: cs) :: splitOnChar sep t
      simp only [splitOnChar, if_neg hc, ih hcs]

theorem splitOnChar_joinWithChar {sep : Char} {segs : List (List Char)}
    (hne : segs ≠ []) (hs : ∀ x ∈ segs, sep ∉ x) :
    splitOnChar sep (joinWithChar sep segs) = segs := by
  induction segs with
  | nil => exact absurd rfl hne
  | cons s rest ih =>
      cases rest with
      | nil =>
          show splitOnChar sep (joinWithChar sep [s]) = [s]
          exact splitOnChar_no_sep (hs s (List.mem_cons_self s []))
      | cons r1 r2 =>
          show splitOnChar sep (s ++ sep :: joinWithChar sep (r1 :: r2)) = s :: r1 :: r2
          rw [splitOnChar_append_sep _ (hs s (List.mem_cons_self s _))]
          rw [ih (by simp) (fun x hx => hs x (List.mem_cons_of_mem s hx))]

theorem decodeFuel_no_merge (ex : String → Bool) :
    ∀ (fuel : Nat) (parts acc : List (List Char)),
      (∀ l₁ p q l₂, parts = l₁ ++ p :: q :: l₂ →
        ex ⟨'/' :: joinWithChar '/' (acc ++ l₁ ++ [p ++ '_' :: q])⟩ = false) →
      decodeFuel ex fuel acc parts = acc ++ parts := by
  intro fuel
  induction fuel with
  | zero => intro parts acc _; rfl
  | succ n ih =>
      intro parts acc h
      match parts with
      | [] => simp [decodeFuel]
      | [p] => simp [decodeFuel]
      | p :: q :: rest =>
          have hc : ex ⟨'/' :: joinWithChar '/' (acc ++ [p ++ '_' :: q])⟩ = false := by
            have := h [] p q rest rfl
            simpa using this
          show (if ex ⟨'/' :: joinWithChar '/' (acc ++ [p ++ '_' :: q])⟩ = true then
                  decodeFuel ex n (acc ++ [p ++ '_' :: q]) rest
                else decodeFuel ex n (acc ++ [p]) (q :: rest)) = acc ++ (p :: q :: rest)
          rw [hc, if_neg Bool.false_ne_true]
          have hnext : ∀ l₁ p2 q2 l₂, q :: rest = l₁ ++ p2 :: q2 :: l₂ →
              ex ⟨'/' :: joinWithChar '/' ((acc ++ [p]) ++ l₁ ++ [p2 ++ '_' :: q2])⟩ = false := by
            intro l₁ p2 q2 l₂ hdec
            have := h (p :: l₁) p2 q2 l₂ (by rw [hdec]; rfl)
            simpa [List.append_assoc] using this
          rw [ih (q :: rest) (acc ++ [p]) hnext]
          simp

/-- C3 (amended): decoding the encoded form returns the original path
whenever no segment contains the delimiter `-` AND the existence oracle
answers `false` for every candidate path the decoder probes (a prefix of
the path with two adjacent segments joined by an underscore). Existence of
the full path itself is neither required nor sufficient — see the
counterexample, where the full path exists but a merged sibling also
exists and wins. -/
theorem decode_roundtrip_of_no_merged_candidate (ex : String → Bool)
    (segs : List (List Char)) (hne : segs ≠ [])
    (hnd : ∀ x ∈ segs, '-' ∉ x)
    (hmerge : ∀ l₁ p q l₂, segs = l₁ ++ p :: q :: l₂ →
      ex ⟨'/' :: joinWithChar '/' (l₁ ++ [p ++ '_' :: q])⟩ = false) :
    decode_project_dir_name ex (encodePath segs) = pathString segs := by
  have hstep : decode_project_dir_name ex (encodePath segs)
      = ⟨'/' :: joinWithChar '/'
          (decodeFuel ex (splitOnChar '-' (joinWithChar '-' segs)).length []
            (splitOnChar '-' (joinWithChar '-' segs)))⟩ := rfl
  rw [hstep, splitOnChar_joinWithChar hne hnd]
  rw [decodeFuel_no_merge ex segs.length segs []
    (fun l₁ p q l₂ hdec => by simpa using hmerge l₁ p q l₂ hdec)]
  rfl

/-- The on-disk situation of the counterexample: both `/a/b` (the original
path) and its merged sibling `/a_b` exist. -/
def cexOracle : String → Bool := fun s => s == "/a_b" || s == "/a/b"

/-- C3 is false as stated: take the path `/a/b` — its segments are free of
the delimiter, and it exists on disk per `cexOracle` — yet decoding its
encoded form `-a-b` returns `/a_b` (the existing merged sibling), not
`/a/b`. -/
theorem decode_roundtrip_fails_with_merged_path :
    cexOracle (pathString [['a'], ['b']]) = true ∧
    ([['a'], ['b']].all fun x => !x.contains '-') = true ∧
    encodePath [['a'], ['b']] = "-a-b" ∧
    decode_project_dir_name cexOracle "-a-b" = "/a_b" ∧
    pathString [['a'], ['b']] = "/a/b" ∧
    ("/a_b" : String) ≠ "/a/b" :=
  ⟨rfl, rfl, rfl, rfl, rfl, by decide⟩

theorem decode_roundtrip_of_no_merged_candidate_witness :
    decode_project_dir_name (fun _ => false) (encodePath [['a'], ['b']])
      = pathString [['a'], ['b']] :=
  decode_roundtrip_of_no_merged_candidate (fun _ => false) [['a'], ['b']]
    (by decide) (by decide) (fun _ _ _ _ _ => rfl)

/-! ## Stability of date grouping -/

theorem mem_pyInsertSorted {α : Type} {lt : α → α → Bool} {x y : α} {l : List α}
    (h : y ∈ pyInsertSorted lt x l) : y = x ∨ y ∈ l := by
  induction l with
  | nil =>
      unfold pyInsertSorted at h
      exact Or.inl (List.mem_singleton.mp h)
  | cons z zs ih =>
      unfold pyInsertSorted at h
      split at h
      · rcases List.mem_cons.mp h with hz | hrest
        · exact Or.inr (hz ▸ List.mem_cons_self z zs)
        · rcases ih hrest with h1 | h2
          · exact Or.inl h1
          · exact Or.inr (List.mem_cons_of_mem z h2)
      · rcases List.mem_cons.mp h with hx | hrest
        · exact Or.inl hx
        · exact Or.inr hrest

theorem mem_pySortStable {α : Type} {lt : α → α → Bool} {y : α} {l : List α}
    (h : y ∈ pySortStable lt l) : y ∈ l := by
  induction l with
  | nil => exact absurd h (List.not_mem_nil y)
  | cons x xs ih =>
      unfold pySortStable at h
      rcases mem_pyInsertSorted h with h1 | h2
      · exact h1 ▸ List.mem_cons_self x xs
      · exact List.mem_cons_of_mem x (ih h2)

theorem filter_pyInsertSorted {α : Type} (key : α → Int) (t : Int) (x : α) (l : List α) :
    List.filter (fun a => key a == t)
        (pyInsertSorted (fun a b => decide (key a < key b)) x l)
      = (if key x == t then [x] else [])
          ++ List.filter (fun a => key a == t) l := by
  induction l with
  | nil =>
      by_cases hx : key x = t <;> simp [pyInsertSorted, hx]
  | cons y ys ih =>
      by_cases hlt : key y < key x
      · have hstep : pyInsertSorted (fun a b => decide (key a < key b)) x (y :: ys)
            = y :: pyInsertSorted (fun a b => decide (key a < key b)) x ys := by
          show (if decide (key y < key x) = true then
                  y :: pyInsertSorted (fun a b => decide (key a < key b)) x ys
                else x :: y :: ys)
              = y :: pyInsertSorted (fun a b => decide (key a < key b)) x ys
          rw [if_pos (by simpa using hlt)]
        rw [hstep, List.filter_cons, ih]
        by_cases hx : key x = t
        · have hy : (key y == t) = false := by
            simp only [beq_eq_false_iff_ne]
            exact ne_of_lt (hx ▸ hlt)
          simp [hy, hx, List.filter_cons]
        · have hx2 : (key x == t) = false := by simp [hx]
          simp only [hx2, List.filter_cons, List.nil_append, if_false]
          rfl
      · have hstep : pyInsertSorted (fun a b => decide (key a < key b)) x (y :: ys)
            = x :: y :: ys := by
          show (if decide (key y < key x) = true then
                  y :: pyInsertSorted (fun a b => decide (key a < key b)) x ys
                else x :: y :: ys)
              = x :: y :: ys
          rw [if_neg (by simpa using hlt)]
        rw [hstep]
        by_cases hx : key x = t
        · simp [List.filter_cons, hx]
        · simp [List.filter_cons, show (key x == t) = false by simp [hx]]

theorem filter_pySortStable {α : Type} (key : α → Int) (t : Int) (l : List α) :
    List.filter (fun a => key a == t)
        (pySortStable (fun a b => decide (key a < key b)) l)
      = List.filter (fun a => key a == t) l := by
  induction l with
  | nil => rfl
  | cons x xs ih =>
      unfold pySortStable
      rw [filter_pyInsertSorted, ih, List.filter_cons]
      by_cases hx : key x = t
      · simp [hx]
      · simp [show (key x == t) = false by simp [hx]]

/-- C7: date grouping is stable. For every bucket `(k, b)` the grouper
produces and every normalized-timestamp sort key value `t`, the sessions
of `b` whose key is `t` are exactly the input sessions with date key `k`
and sort key `t`, in input order — so two sessions of one bucket with
equal normalized `created` timestamps (including the both-absent case,
where every member of the `Unknown` bucket shares the `datetime.min` key)
appear in their input order. -/
theorem group_sessions_by_date_stable (sessions : List Session)
    (k : String) (b : List Session) (t : Int)
    (hkb : (k, b) ∈ group_sessions_by_date sessions) :
    b.filter (fun s => sortKeyMicros s.created == t)
      = (sessions.filter fun s => dateKeyOf s == k).filter
          (fun s => sortKeyMicros s.created == t) := by
  unfold group_sessions_by_date at hkb
  have hkb2 := mem_pySortStable hkb
  rcases List.mem_map.mp hkb2 with ⟨k2, _, heq⟩
  injection heq with hk hb
  subst hk
  rw [← hb]
  exact filter_pySortStable (fun s : Session => sortKeyMicros s.created) t _

/-- A concrete created timestamp used by the stability witness. -/
def dtC7 : DateTime := ⟨2024, 1, 1, 10, 0, 0, 0, none⟩

/-- Two sessions with identical `created` timestamps, distinct summaries. -/
def sessC7A : Session :=
  { session_id := .str "s1", summary := .str "A", first_prompt := .str ""
    message_count := .num 1, created := some dtC7, modified := some (.str "")
    project_path := .str "", git_branch := some (.str ""), full_path := .str "" }

/-- Second session of the stability witness (appears after `sessC7A`). -/
def sessC7B : Session :=
  { session_id := .str "s2", summary := .str "B", first_prompt := .str ""
    message_count := .num 2, created := some dtC7, modified := some (.str "")
    project_path := .str "", git_branch := some (.str ""), full_path := .str "" }

theorem group_sessions_by_date_stable_witness :
    (("2024-01-01", [sessC7A, sessC7B])
        ∈ group_sessions_by_date [sessC7A, sessC7B]) ∧
    List.filter (fun s => sortKeyMicros s.created == sortKeyMicros (some dtC7))
        [sessC7A, sessC7B]
      = List.filter (fun s => sortKeyMicros s.created == sortKeyMicros (some dtC7))
          (List.filter (fun s => dateKeyOf s == "2024-01-01") [sessC7A, sessC7B]) :=
  ⟨by decide,
   group_sessions_by_date_stable [sessC7A, sessC7B] "2024-01-01" [sessC7A, sessC7B]
     (sortKeyMicros (some dtC7)) (by decide)⟩

/-! ## Transcript lookup: ambiguity handling -/

theorem find_session_file_ambiguous {q pd : String} {files : List JsonlFile}
    (h : 2 ≤ (sessionFileMatches q pd files).length) :
    find_session_file q pd files =
      (("Multiple sessions match \x27" ++ q ++ "\x27:")
          :: (sessionFileMatches q pd files).map (fun m => "  " ++ m.stem),
       none) := by
  simp only [find_session_file]
  rw [if_neg (by omega), if_pos (by omega)]

theorem isPrefixL_refl (l : List Char) : isPrefixL l l = true := by
  induction l with
  | nil => rfl
  | cons c cs ih => simp [isPrefixL, ih]

theorem containsL_self (l : List Char) : containsL l l = true := by
  cases l with
  | nil => rfl
  | cons c cs => simp [containsL, isPrefixL_refl]

theorem mem_two_distinct_length {α : Type} {l : List α} {a b : α}
    (ha : a ∈ l) (hb : b ∈ l) (hne : a ≠ b) : 2 ≤ l.length := by
  cases l with
  | nil => exact absurd ha (List.not_mem_nil a)
  | cons x xs =>
      have hx : 0 < xs.length := by
        rcases List.mem_cons.mp ha with h1 | h1
        · rcases List.mem_cons.mp hb with h2 | h2
          · exact absurd (h1.trans h2.symm) hne
          · exact List.length_pos.mpr (List.ne_nil_of_mem h2)
        · exact List.length_pos.mpr (List.ne_nil_of_mem h1)
      simp only [List.length_cons]
      omega

/-- C9: when the queried identifier is a substring of the stems of two or
more eligible session files, `find_session_file` returns no file,
`view_session` returns the not-found result (no transcript body is
produced, so the operation aborts cleanly), and the printed candidate
listing names every matching stem. -/
theorem view_session_ambiguous_lists_candidates (q : String) (env : Env) (m : Int)
    (h : 2 ≤ (sessionFileMatches q env.projectsDir env.files).length) :
    (find_session_file q env.projectsDir env.files).2 = none ∧
    view_session q env m =
      .ok ((find_session_file q env.projectsDir env.files).1,
           "Session not found: " ++ q) ∧
    (find_session_file q env.projectsDir env.files).1 =
      ("Multiple sessions match \x27" ++ q ++ "\x27:")
        :: (sessionFileMatches q env.projectsDir env.files).map (fun f => "  " ++ f.stem) := by
  have hff := find_session_file_ambiguous h
  refine ⟨by rw [hff], ?_, by rw [hff]⟩
  unfold view_session
  rw [hff]

/-- Two eligible log files whose stems both contain `abc`. -/
def envAmb : Env :=
  ⟨"/r", [], [⟨"p1", "abc1", true, 0, true, []⟩, ⟨"p2", "abc2", true, 0, true, []⟩]⟩

theorem view_session_ambiguous_lists_candidates_witness :
    2 ≤ (sessionFileMatches "abc" envAmb.projectsDir envAmb.files).length ∧
    ((find_session_file "abc" envAmb.projectsDir envAmb.files).2 = none ∧
     view_session "abc" envAmb 0 =
       .ok ((find_session_file "abc" envAmb.projectsDir envAmb.files).1,
            "Session not found: " ++ "abc") ∧
     (find_session_file "abc" envAmb.projectsDir envAmb.files).1 =
       ("Multiple sessions match \x27" ++ "abc" ++ "\x27:")
         :: (sessionFileMatches "abc" envAmb.projectsDir envAmb.files).map
              (fun f => "  " ++ f.stem)) :=
  ⟨by decide, view_session_ambiguous_lists_candidates "abc" envAmb 0 (by decide)⟩

/-- C10: `find_session_file` never prefers an exact match. If the query
equals the stem of one eligible file but is also a proper substring of
another eligible file's stem, the lookup is ambiguous: no file is returned
and `view_session` yields the not-found result even though an exactly
matching session exists. -/
theorem exact_match_not_preferred (q : String) (env : Env) (m : Int)
    (f g : JsonlFile) (hf : f ∈ env.files) (hg : g ∈ env.files)
    (hfe : skipsFile env.projectsDir f = false)
    (hge : skipsFile env.projectsDir g = false)
    (hstem : f.stem = q)
    (hsub : pyInStr q g.stem = true) (hne : g.stem ≠ q) :
    (find_session_file q env.projectsDir env.files).2 = none ∧
    view_session q env m =
      .ok ((find_session_file q env.projectsDir env.files).1,
           "Session not found: " ++ q) := by
  have hfm : f ∈ sessionFileMatches q env.projectsDir env.files :=
    List.mem_filter.mpr ⟨hf, by rw [hfe, hstem]; simp [pyInStr, containsL_self]⟩
  have hgm : g ∈ sessionFileMatches q env.projectsDir env.files :=
    List.mem_filter.mpr ⟨hg, by rw [hge]; simp [hsub]⟩
  have hfg : f ≠ g := fun he => hne (by rw [← he, hstem])
  have hlen : 2 ≤ (sessionFileMatches q env.projectsDir env.files).length :=
    mem_two_distinct_length hfm hgm hfg
  have hff := find_session_file_ambiguous hlen
  refine ⟨by rw [hff], ?_⟩
  unfold view_session
  rw [hff]

/-- A file whose stem is exactly the query of the C10 witness. -/
def fExact : JsonlFile := ⟨"p", "abcd", true, 0, true, []⟩

/-- A file whose stem properly contains the query of the C10 witness. -/
def gLonger : JsonlFile := ⟨"p", "abcde", true, 0, true, []⟩

/-- Environment of the C10 witness. -/
def envExact : Env := ⟨"/r", [], [fExact, gLonger]⟩

theorem exact_match_not_preferred_witness :
    fExact.stem = "abcd" ∧
    pyInStr "abcd" gLonger.stem = true ∧
    gLonger.stem ≠ "abcd" ∧
    ((find_session_file "abcd" envExact.projectsDir envExact.files).2 = none ∧
     view_session "abcd" envExact 0 =
       .ok ((find_session_file "abcd" envExact.projectsDir envExact.files).1,
            "Session not found: " ++ "abcd")) :=
  ⟨rfl, by decide, by decide,
   exact_match_not_preferred "abcd" envExact 0 fExact gLonger
     (by decide) (by decide) (by decide) (by decide) rfl (by decide) (by decide)⟩

end CSS


